import Mathlib

/-!
Verification development for the lite-grad-scheduler repository.

The development shallowly embeds the two core components of the repository:

* the domain models (`src/scheduler/domain/models.py`): `Weekday`, `TimeSlot`
  (a frozen dataclass whose `__post_init__` validates the period), and the
  `Course` entity whose timeslot is flattened into plain integer columns and
  reconstructed by the `timeslot` property;
* the conflict detector (`src/scheduler/services/conflict_detector.py`): a
  pairwise scan over an ordered list of courses;
* the schedule generator (`src/scheduler/services/schedule_generator.py`):
  one decision variable per distinct course id (the variables live in a dict
  keyed by id, so duplicate ids share a variable), with an all-different
  constraint over every professor group and every classroom group of size
  at least two.  The external CP-SAT solver is embedded as a complete,
  deterministic search (`solveCSP`) that returns a satisfying assignment of
  slot indices exactly when one exists, which is the contract the code relies
  on (`OPTIMAL`/`FEASIBLE` vs. everything else collapsing to `ValueError`).

Python exceptions are modelled by the `PyError` type; every failure in the
embedded code is a `PyError.valueError`, mirroring the single exception class
(`ValueError`) used by the source for both domain validation and
infeasibility.
-/

/-- Python exceptions raised by the embedded code.  Both the `TimeSlot`
validation failure and the generator's infeasibility failure are a Python
`ValueError`, so a single constructor carrying the message suffices. -/
inductive PyError where
  | valueError (msg : String)
deriving DecidableEq

/-- The `Weekday` enum of `models.py` (values 1..5). -/
inductive Weekday where
  | monday
  | tuesday
  | wednesday
  | thursday
  | friday
deriving DecidableEq, Inhabited

/-- The `value` of a `Weekday` member, as stored in the flattened
`Course.weekday` column. -/
def Weekday.value : Weekday → Int
  | .monday => 1
  | .tuesday => 2
  | .wednesday => 3
  | .thursday => 4
  | .friday => 5

/-- The enum call `Weekday(v)`: returns the member with that value, raising
`ValueError` for any other integer. -/
def Weekday.ofValue (v : Int) : Except PyError Weekday :=
  if v = 1 then .ok .monday
  else if v = 2 then .ok .tuesday
  else if v = 3 then .ok .wednesday
  else if v = 4 then .ok .thursday
  else if v = 5 then .ok .friday
  else .error (.valueError (toString v ++ " is not a valid Weekday"))

/-- The frozen `TimeSlot` dataclass: a weekday together with a period.
Equality is the derived structural equality, as for a Python dataclass. -/
structure TimeSlot where
  weekday : Weekday
  period : Int
deriving DecidableEq, Inhabited

/-- Constructing a `TimeSlot` runs `__post_init__`, which raises `ValueError`
unless `1 <= period <= 12`.  This is the only way the source ever builds a
`TimeSlot`. -/
def TimeSlot.make (weekday : Weekday) (period : Int) : Except PyError TimeSlot :=
  if 1 ≤ period ∧ period ≤ 12 then .ok ⟨weekday, period⟩
  else .error (.valueError ("Period must be between 1 and 12, got " ++ toString period))

/-- The `Professor` entity (only the fields; relationships are persistence
glue).  The generator receives but never reads this list. -/
structure Professor where
  id : String
  name : String
  department : Option String
  title : Option String

/-- The `Classroom` entity. -/
structure Classroom where
  id : String
  name : String
  capacity : Int

/-- The `Course` entity of `models.py`.  The timeslot is flattened into the
plain integer columns `weekday` and `period`; nothing in the entity itself
validates them.  The optional academic metadata columns are carried for
fidelity but play no role in scheduling. -/
structure Course where
  id : String
  name : String
  professor_id : String
  classroom_id : String
  weekday : Int
  period : Int
  credits : Option Float
  hours : Option Int
  course_type : Option String
  department : Option String
deriving Inhabited

/-- The `Course.timeslot` property: reconstructs the value object via
`TimeSlot(weekday=Weekday(self.weekday), period=self.period)`.  Both the enum
lookup and the dataclass `__post_init__` can raise `ValueError`. -/
def Course.timeslot (c : Course) : Except PyError TimeSlot :=
  match Weekday.ofValue c.weekday with
  | .error e => .error e
  | .ok w => TimeSlot.make w c.period

/-- The `Course.from_timeslot` classmethod: builds a `Course` from a
`TimeSlot` value object, flattening it into the integer columns.  The
optional metadata arguments default to `None` and are left at that default
here, as in every call site relevant to the core. -/
def Course.from_timeslot (id name professor_id classroom_id : String)
    (timeslot : TimeSlot) : Course :=
  { id := id
    name := name
    professor_id := professor_id
    classroom_id := classroom_id
    weekday := timeslot.weekday.value
    period := timeslot.period
    credits := none
    hours := none
    course_type := none
    department := none }

/-- A `Course` whose flattened columns encode a constructible timeslot: the
weekday column holds a valid `Weekday` value and the period column is in
range.  Courses produced by `Course.from_timeslot` always satisfy this. -/
def ValidCourse (c : Course) : Prop :=
  (1 ≤ c.weekday ∧ c.weekday ≤ 5) ∧ (1 ≤ c.period ∧ c.period ≤ 12)

instance : DecidablePred ValidCourse := fun c => by
  unfold ValidCourse; infer_instance

/-- `Weekday.value` is injective. -/
theorem Weekday.value_injective : ∀ w₁ w₂ : Weekday, w₁.value = w₂.value → w₁ = w₂ := by
  intro w₁ w₂ h
  cases w₁ <;> cases w₂ <;> simp_all [Weekday.value]

/-- Round-trip of the enum lookup: `Weekday.ofValue` succeeds exactly on the
stored value of a member, and returns that member. -/
theorem Weekday.ofValue_value (w : Weekday) : Weekday.ofValue w.value = .ok w := by
  cases w <;> rfl

/-- If the enum lookup succeeds, the returned member stores the looked-up
value. -/
theorem Weekday.ofValue_ok {v : Int} {w : Weekday} (h : Weekday.ofValue v = .ok w) :
    w.value = v := by
  unfold Weekday.ofValue at h
  split_ifs at h <;> cases h <;> simp_all [Weekday.value]

/-- A valid course's `timeslot` property succeeds and returns the timeslot
with exactly the stored columns. -/
theorem Course.timeslot_of_valid {c : Course} (h : ValidCourse c) :
    ∃ w : Weekday, w.value = c.weekday ∧ c.timeslot = .ok ⟨w, c.period⟩ := by
  obtain ⟨⟨hw1, hw5⟩, hp⟩ := h
  have hcases : c.weekday = 1 ∨ c.weekday = 2 ∨ c.weekday = 3 ∨ c.weekday = 4 ∨
      c.weekday = 5 := by omega
  have hmake : ∀ w : Weekday, TimeSlot.make w c.period = .ok ⟨w, c.period⟩ := by
    intro w
    unfold TimeSlot.make
    rw [if_pos hp]
  rcases hcases with h | h | h | h | h
  · exact ⟨.monday, by simp [Weekday.value, h], by
      unfold Course.timeslot Weekday.ofValue; rw [h]; simpa using hmake .monday⟩
  · exact ⟨.tuesday, by simp [Weekday.value, h], by
      unfold Course.timeslot Weekday.ofValue; rw [h]; simpa using hmake .tuesday⟩
  · exact ⟨.wednesday, by simp [Weekday.value, h], by
      unfold Course.timeslot Weekday.ofValue; rw [h]; simpa using hmake .wednesday⟩
  · exact ⟨.thursday, by simp [Weekday.value, h], by
      unfold Course.timeslot Weekday.ofValue; rw [h]; simpa using hmake .thursday⟩
  · exact ⟨.friday, by simp [Weekday.value, h], by
      unfold Course.timeslot Weekday.ofValue; rw [h]; simpa using hmake .friday⟩

/-- C7: constructing a `TimeSlot` with a period outside `[1, 12]` fails at
construction with `ValueError` (the period is never clamped: on success the
stored period is exactly the argument), a period inside `[1, 12]` succeeds,
and `TimeSlot` equality is structural on `(weekday, period)`. -/
theorem timeslot_construction_spec (w : Weekday) (p : Int) :
    ((1 ≤ p ∧ p ≤ 12) → TimeSlot.make w p = .ok ⟨w, p⟩) ∧
    (¬(1 ≤ p ∧ p ≤ 12) →
      TimeSlot.make w p =
        .error (.valueError ("Period must be between 1 and 12, got " ++ toString p))) ∧
    (∀ t₁ t₂ : TimeSlot, t₁ = t₂ ↔ t₁.weekday = t₂.weekday ∧ t₁.period = t₂.period) := by
  refine ⟨fun h => ?_, fun h => ?_, fun t₁ t₂ => ?_⟩
  · unfold TimeSlot.make; rw [if_pos h]
  · unfold TimeSlot.make; rw [if_neg h]
  · cases t₁; cases t₂; simp [TimeSlot.mk.injEq]

theorem timeslot_construction_spec_witness :
    TimeSlot.make .monday 13 =
      .error (.valueError ("Period must be between 1 and 12, got " ++ toString (13 : Int))) ∧
    TimeSlot.make .monday 5 = .ok ⟨.monday, 5⟩ :=
  ⟨(timeslot_construction_spec .monday 13).2.1 (by decide),
   (timeslot_construction_spec .monday 5).1 (by decide)⟩

/-- C10: for a valid `TimeSlot`, `Course.from_timeslot` round-trips: the
`timeslot` property of the constructed course yields exactly the given
timeslot, and the identifying fields equal the given arguments. -/
theorem from_timeslot_roundtrip (id name professor_id classroom_id : String)
    (t : TimeSlot) (hp : 1 ≤ t.period ∧ t.period ≤ 12) :
    (Course.from_timeslot id name professor_id classroom_id t).timeslot = .ok t ∧
    (Course.from_timeslot id name professor_id classroom_id t).id = id ∧
    (Course.from_timeslot id name professor_id classroom_id t).name = name ∧
    (Course.from_timeslot id name professor_id classroom_id t).professor_id = professor_id ∧
    (Course.from_timeslot id name professor_id classroom_id t).classroom_id = classroom_id := by
  refine ⟨?_, rfl, rfl, rfl, rfl⟩
  have hwv : 1 ≤ t.weekday.value ∧ t.weekday.value ≤ 5 := by
    cases t.weekday <;> decide
  have hv : ValidCourse (Course.from_timeslot id name professor_id classroom_id t) := by
    constructor
    · simpa [Course.from_timeslot] using hwv
    · simpa [Course.from_timeslot] using hp
  obtain ⟨w, hwval, hts⟩ := Course.timeslot_of_valid hv
  have hw : w = t.weekday :=
    Weekday.value_injective _ _ (by simpa [Course.from_timeslot] using hwval)
  rw [hts, hw]
  rfl

theorem from_timeslot_roundtrip_witness :
    (Course.from_timeslot "c1" "Algo" "p1" "r1" ⟨.tuesday, 3⟩).timeslot =
      .ok ⟨.tuesday, 3⟩ :=
  (from_timeslot_roundtrip "c1" "Algo" "p1" "r1" ⟨.tuesday, 3⟩ (by decide)).1

/-- Lexicographic index-pair traversal order of the nested loops
`for i in range(len(courses)): for j in range(i + 1, len(courses))` in
`ConflictDetector._find_conflicts`. -/
def pairIndices (n : Nat) : List (Nat × Nat) :=
  (List.range n).flatMap (fun i => (List.range' (i + 1) (n - (i + 1))).map (fun j => (i, j)))

/-- The loop-body test of `_find_conflicts`:
`resource_matcher(course_a, course_b) and course_a.timeslot == course_b.timeslot`,
with Python's short-circuit evaluation and exception propagation from the
`timeslot` reconstruction. -/
def checkPair (m : Course → Course → Bool) (a b : Course) : Except PyError Bool :=
  if m a b then
    match a.timeslot with
    | .error e => .error e
    | .ok ta =>
      match b.timeslot with
      | .error e => .error e
      | .ok tb => .ok (decide (ta = tb))
  else .ok false

/-- The nested loops of `_find_conflicts`, processing the index pairs in
order and appending a pair to the accumulator when the test fires; an
exception raised at some pair aborts the whole call. -/
def findConflictsAux (courses : List Course) (m : Course → Course → Bool) :
    List (Nat × Nat) → Except PyError (List (Course × Course))
  | [] => .ok []
  | p :: rest =>
    match checkPair m (courses.getD p.1 default) (courses.getD p.2 default) with
    | .error e => .error e
    | .ok hit =>
      match findConflictsAux courses m rest with
      | .error e => .error e
      | .ok tail =>
        .ok (if hit then (courses.getD p.1 default, courses.getD p.2 default) :: tail
             else tail)

/-- `ConflictDetector._find_conflicts`: generic conflict finder for
same-resource + same-timeslot pairs. -/
def ConflictDetector._find_conflicts (courses : List Course)
    (resource_matcher : Course → Course → Bool) :
    Except PyError (List (Course × Course)) :=
  findConflictsAux courses resource_matcher (pairIndices courses.length)

/-- `ConflictDetector.find_professor_conflicts`. -/
def ConflictDetector.find_professor_conflicts (courses : List Course) :
    Except PyError (List (Course × Course)) :=
  ConflictDetector._find_conflicts courses (fun a b => a.professor_id == b.professor_id)

/-- `ConflictDetector.find_classroom_conflicts`. -/
def ConflictDetector.find_classroom_conflicts (courses : List Course) :
    Except PyError (List (Course × Course)) :=
  ConflictDetector._find_conflicts courses (fun a b => a.classroom_id == b.classroom_id)

/-- Specification predicate (from the spec's words): the pair at indices
`(i, j)` conflicts when the resource matcher holds and the stored timeslot
columns agree. -/
def conflictCond (m : Course → Course → Bool) (courses : List Course) (p : Nat × Nat) : Bool :=
  m (courses.getD p.1 default) (courses.getD p.2 default) &&
    (decide ((courses.getD p.1 default).weekday = (courses.getD p.2 default).weekday) &&
     decide ((courses.getD p.1 default).period = (courses.getD p.2 default).period))

/-- Specification list (from the spec's words): for every unordered pair
`i < j` in ascending lexicographic order, the pair `(courses[i], courses[j])`
is emitted iff the resource keys and the timeslots agree. -/
def findConflictsSpec (courses : List Course) (m : Course → Course → Bool) :
    List (Course × Course) :=
  ((pairIndices courses.length).filter (conflictCond m courses)).map
    (fun p => (courses.getD p.1 default, courses.getD p.2 default))

/-- Strict ascending lexicographic order on index pairs. -/
def pairLexLt (p q : Nat × Nat) : Prop :=
  p.1 < q.1 ∨ (p.1 = q.1 ∧ p.2 < q.2)

theorem mem_pairIndices {n : Nat} {p : Nat × Nat} :
    p ∈ pairIndices n ↔ p.1 < p.2 ∧ p.2 < n := by
  unfold pairIndices
  simp only [List.mem_flatMap, List.mem_map, List.mem_range, List.mem_range']
  constructor
  · rintro ⟨i, hi, j, ⟨t, ht, rfl⟩, rfl⟩
    simp only
    omega
  · rintro ⟨h1, h2⟩
    refine ⟨p.1, by omega, p.2, ⟨p.2 - (p.1 + 1), by omega, by omega⟩, by simp⟩

theorem pairIndices_pairwise (n : Nat) : (pairIndices n).Pairwise pairLexLt := by
  unfold pairIndices
  rw [List.pairwise_flatMap]
  constructor
  · intro i _
    rw [List.pairwise_map]
    exact (List.pairwise_lt_range' _ _).imp (fun h => Or.inr ⟨rfl, h⟩)
  · refine (List.pairwise_lt_range n).imp ?_
    intro i i' h x hx y hy
    rcases List.mem_map.mp hx with ⟨jx, _, rfl⟩
    rcases List.mem_map.mp hy with ⟨jy, _, rfl⟩
    exact Or.inl h

theorem pairIndices_nodup (n : Nat) : (pairIndices n).Nodup :=
  (pairIndices_pairwise n).imp (fun h heq => by
    subst heq
    rcases h with h | ⟨_, h⟩ <;> exact Nat.lt_irrefl _ h)

/-- On valid courses `checkPair` never raises, and its boolean agrees with
the specification condition on the stored columns. -/
theorem checkPair_valid (m : Course → Course → Bool) {a b : Course}
    (ha : ValidCourse a) (hb : ValidCourse b) :
    checkPair m a b =
      .ok (m a b && (decide (a.weekday = b.weekday) && decide (a.period = b.period))) := by
  obtain ⟨wa, hwa, hta⟩ := Course.timeslot_of_valid ha
  obtain ⟨wb, hwb, htb⟩ := Course.timeslot_of_valid hb
  unfold checkPair
  by_cases hm : m a b
  · simp only [hm, if_true, hta, htb, Bool.true_and]
    congr 1
    rw [← Bool.decide_and, decide_eq_decide]
    constructor
    · intro h
      injection h with h1 h2
      exact ⟨by rw [← hwa, ← hwb, h1], h2⟩
    · rintro ⟨h1, h2⟩
      have : wa = wb := Weekday.value_injective _ _ (by rw [hwa, hwb, h1])
      rw [this, h2]
  · simp [hm]

/-- On a list of valid courses the pairwise loop never raises and computes
exactly the filtered pair list, for any traversal index set in range. -/
theorem findConflictsAux_eq_ok {courses : List Course} {m : Course → Course → Bool}
    (hv : ∀ c ∈ courses, ValidCourse c) (ps : List (Nat × Nat))
    (hps : ∀ p ∈ ps, p.1 < courses.length ∧ p.2 < courses.length) :
    findConflictsAux courses m ps =
      .ok ((ps.filter (conflictCond m courses)).map
        (fun p => (courses.getD p.1 default, courses.getD p.2 default))) := by
  induction ps with
  | nil => rfl
  | cons p rest ih =>
    have hp := hps p (List.mem_cons_self _ _)
    have ha : ValidCourse (courses.getD p.1 default) := by
      rw [List.getD_eq_getElem _ _ hp.1]
      exact hv _ (List.getElem_mem _)
    have hb : ValidCourse (courses.getD p.2 default) := by
      rw [List.getD_eq_getElem _ _ hp.2]
      exact hv _ (List.getElem_mem _)
    have hcp : checkPair m (courses.getD p.1 default) (courses.getD p.2 default)
        = .ok (conflictCond m courses p) := by
      rw [checkPair_valid m ha hb]; rfl
    have hrest := ih (fun q hq => hps q (List.mem_cons_of_mem _ hq))
    simp only [findConflictsAux, hcp, hrest, List.filter_cons]
    cases hc : conflictCond m courses p <;> simp [hc]

/-- On a list of valid courses `_find_conflicts` returns normally and agrees
with the specification list. -/
theorem find_conflicts_eq_spec {courses : List Course} {m : Course → Course → Bool}
    (hv : ∀ c ∈ courses, ValidCourse c) :
    ConflictDetector._find_conflicts courses m = .ok (findConflictsSpec courses m) :=
  findConflictsAux_eq_ok hv _ (fun p hp => by
    have h := mem_pairIndices.mp hp
    omega)

/-- C5: for every list of scheduled sections (courses with validly stored
timeslot columns), `_find_conflicts` returns exactly the pairs
`(courses[i], courses[j])` with `i < j` whose resource keys and timeslots
agree, traversed in ascending lexicographic `(i, j)` order; the traversal
never pairs a position with itself and visits each unordered index pair
exactly once; `find_professor_conflicts` and `find_classroom_conflicts` are
the instantiations at the professor-id and classroom-id matchers. -/
theorem conflict_detector_exact_pairs (courses : List Course)
    (m : Course → Course → Bool) (hv : ∀ c ∈ courses, ValidCourse c) :
    ConflictDetector._find_conflicts courses m = .ok (findConflictsSpec courses m) ∧
    (∀ p ∈ pairIndices courses.length, p.1 < p.2 ∧ p.2 < courses.length) ∧
    (pairIndices courses.length).Pairwise pairLexLt ∧
    (pairIndices courses.length).Nodup ∧
    ConflictDetector.find_professor_conflicts courses =
      ConflictDetector._find_conflicts courses (fun a b => a.professor_id == b.professor_id) ∧
    ConflictDetector.find_classroom_conflicts courses =
      ConflictDetector._find_conflicts courses (fun a b => a.classroom_id == b.classroom_id) :=
  ⟨find_conflicts_eq_spec hv, fun _ hp => mem_pairIndices.mp hp,
   pairIndices_pairwise _, pairIndices_nodup _, rfl, rfl⟩

/-- Two valid courses sharing a professor and a timeslot (scenario of the
unit tests). -/
def cProf1 : Course := ⟨"c1", "ML", "P1", "R1", 1, 1, none, none, none, none⟩

/-- Second valid course: same professor and timeslot as `cProf1`, different
classroom. -/
def cProf2 : Course := ⟨"c2", "DL", "P1", "R2", 1, 1, none, none, none, none⟩

theorem conflict_detector_exact_pairs_witness :
    ConflictDetector._find_conflicts [cProf1, cProf2]
        (fun a b => a.professor_id == b.professor_id) =
      .ok (findConflictsSpec [cProf1, cProf2]
        (fun a b => a.professor_id == b.professor_id)) :=
  (conflict_detector_exact_pairs [cProf1, cProf2]
    (fun a b => a.professor_id == b.professor_id) (by decide)).1

/-- C9 (amended): on every list of courses whose stored weekday and period
columns are valid, both detectors return normally (the reconstruction error
branches are not reached), and on the empty list both return the empty
list. -/
theorem detector_total_on_valid (courses : List Course)
    (hv : ∀ c ∈ courses, ValidCourse c) :
    ConflictDetector.find_professor_conflicts courses =
      .ok (findConflictsSpec courses (fun a b => a.professor_id == b.professor_id)) ∧
    ConflictDetector.find_classroom_conflicts courses =
      .ok (findConflictsSpec courses (fun a b => a.classroom_id == b.classroom_id)) ∧
    ConflictDetector.find_professor_conflicts ([] : List Course) = .ok [] ∧
    ConflictDetector.find_classroom_conflicts ([] : List Course) = .ok [] :=
  ⟨find_conflicts_eq_spec hv, find_conflicts_eq_spec hv, rfl, rfl⟩

theorem detector_total_on_valid_witness :
    ConflictDetector.find_professor_conflicts [cProf1, cProf2] =
      .ok (findConflictsSpec [cProf1, cProf2]
        (fun a b => a.professor_id == b.professor_id)) ∧
    ConflictDetector.find_professor_conflicts ([] : List Course) = .ok [] :=
  ⟨(detector_total_on_valid [cProf1, cProf2] (by decide)).1,
   (detector_total_on_valid [] (by simp)).2.2.1⟩

/-- A course whose stored period column is out of range; such a value is
expressible because the `Course` entity does not validate its columns. -/
def badPeriodCourse : Course := ⟨"cx", "Bad", "P1", "R9", 1, 13, none, none, none, none⟩

/-- C9 counterexample: on an input list containing a course whose stored
period is 13, `find_professor_conflicts` reaches the reconstruction error
branch and raises instead of returning normally. -/
theorem detector_error_reachable_counterexample :
    ConflictDetector.find_professor_conflicts [badPeriodCourse, cProf1] =
      .error (.valueError "Period must be between 1 and 12, got 13") := rfl

/-- Membership in the specification list, characterised by index pairs. -/
theorem mem_findConflictsSpec {l : List Course} {m : Course → Course → Bool}
    {q : Course × Course} :
    q ∈ findConflictsSpec l m ↔
      ∃ (i j : Nat) (hi : i < l.length) (hj : j < l.length), i < j ∧
        m l[i] l[j] = true ∧ l[i].weekday = l[j].weekday ∧ l[i].period = l[j].period ∧
        q = (l[i], l[j]) := by
  unfold findConflictsSpec conflictCond
  rw [List.mem_map]
  constructor
  · rintro ⟨p, hp, rfl⟩
    rw [List.mem_filter] at hp
    obtain ⟨hmem, hcond⟩ := hp
    obtain ⟨h12, h2n⟩ := mem_pairIndices.mp hmem
    have h1n : p.1 < l.length := lt_trans h12 h2n
    rw [List.getD_eq_getElem _ _ h1n, List.getD_eq_getElem _ _ h2n] at hcond ⊢
    simp only [Bool.and_eq_true, decide_eq_true_eq] at hcond
    exact ⟨p.1, p.2, h1n, h2n, h12, hcond.1, hcond.2.1, hcond.2.2, rfl⟩
  · rintro ⟨i, j, hi, hj, hij, hm, hw, hp, rfl⟩
    refine ⟨(i, j), ?_, ?_⟩
    · rw [List.mem_filter]
      refine ⟨mem_pairIndices.mpr ⟨hij, hj⟩, ?_⟩
      rw [List.getD_eq_getElem _ _ (lt_trans hij hj), List.getD_eq_getElem _ _ hj]
      simp only [Bool.and_eq_true, decide_eq_true_eq]
      exact ⟨hm, hw, hp⟩
    · rw [List.getD_eq_getElem _ _ (lt_trans hij hj), List.getD_eq_getElem _ _ hj]

/-- An unordered pair of section ids occurs among a conflict list. -/
def pairMem (x y : String) (r : List (Course × Course)) : Prop :=
  ∃ p ∈ r, (p.1.id = x ∧ p.2.id = y) ∨ (p.1.id = y ∧ p.2.id = x)

/-- For a symmetric matcher and pairwise-distinct ids, the unordered id-pairs
of the specification list are characterised purely by membership in the
course list, hence are invariant under permutation of the input. -/
theorem pairMem_spec_iff {l : List Course} {m : Course → Course → Bool}
    (hm : ∀ a b, m a b = m b a)
    (hnd : (l.map (fun c => c.id)).Nodup) (x y : String) :
    pairMem x y (findConflictsSpec l m) ↔
      ∃ a ∈ l, ∃ b ∈ l, ((a.id = x ∧ b.id = y) ∨ (a.id = y ∧ b.id = x)) ∧
        a.id ≠ b.id ∧ m a b = true ∧ a.weekday = b.weekday ∧ a.period = b.period := by
  have hinj : ∀ (i j : Nat) (hi : i < l.length) (hj : j < l.length), i ≠ j →
      l[i].id ≠ l[j].id := by
    intro i j hi hj hij heq
    have hi' : i < (l.map (fun c => c.id)).length := by simpa using hi
    have hj' : j < (l.map (fun c => c.id)).length := by simpa using hj
    exact hij ((@List.Nodup.getElem_inj_iff _ _ hnd i hi' j hj').mp (by simpa using heq))
  constructor
  · rintro ⟨q, hq, horient⟩
    obtain ⟨i, j, hi, hj, hij, hmab, hw, hp, rfl⟩ := mem_findConflictsSpec.mp hq
    exact ⟨l[i], List.getElem_mem hi, l[j], List.getElem_mem hj, horient,
      hinj i j hi hj (Nat.ne_of_lt hij), hmab, hw, hp⟩
  · rintro ⟨a, ha, b, hb, horient, hne, hmab, hw, hp⟩
    obtain ⟨i, hi, rfl⟩ := List.mem_iff_getElem.mp ha
    obtain ⟨j, hj, rfl⟩ := List.mem_iff_getElem.mp hb
    have hij : i ≠ j := fun h => hne (by subst h; rfl)
    rcases Nat.lt_or_ge i j with hlt | hge
    · exact ⟨(l[i], l[j]),
        mem_findConflictsSpec.mpr ⟨i, j, hi, hj, hlt, hmab, hw, hp, rfl⟩, horient⟩
    · have hlt : j < i := by omega
      refine ⟨(l[j], l[i]),
        mem_findConflictsSpec.mpr ⟨j, i, hj, hi, hlt, ?_, hw.symm, hp.symm, rfl⟩, ?_⟩
      · rw [hm]; exact hmab
      · rcases horient with ⟨h1, h2⟩ | ⟨h1, h2⟩
        · exact Or.inr ⟨h2, h1⟩
        · exact Or.inl ⟨h2, h1⟩

/-- Permutation invariance of the specification list's unordered id-pairs. -/
theorem pairMem_spec_perm {l l' : List Course} {m : Course → Course → Bool}
    (hm : ∀ a b, m a b = m b a) (hnd : (l.map (fun c => c.id)).Nodup)
    (hperm : l'.Perm l) (x y : String) :
    pairMem x y (findConflictsSpec l m) ↔ pairMem x y (findConflictsSpec l' m) := by
  have hnd' : (l'.map (fun c => c.id)).Nodup := (hperm.map _).nodup_iff.mpr hnd
  rw [pairMem_spec_iff hm hnd, pairMem_spec_iff hm hnd']
  constructor
  · rintro ⟨a, ha, b, hb, rest⟩
    exact ⟨a, hperm.mem_iff.mpr ha, b, hperm.mem_iff.mpr hb, rest⟩
  · rintro ⟨a, ha, b, hb, rest⟩
    exact ⟨a, hperm.mem_iff.mp ha, b, hperm.mem_iff.mp hb, rest⟩

/-- C6: on a list of scheduled sections with pairwise-distinct ids, the set
of unordered id-pairs reported by `find_professor_conflicts` (respectively
`find_classroom_conflicts`) on any permutation of the list equals the set
reported on the original list. -/
theorem conflict_detection_permutation_invariant (l l' : List Course)
    (hv : ∀ c ∈ l, ValidCourse c) (hnd : (l.map (fun c => c.id)).Nodup)
    (hperm : l'.Perm l) (r r' s s' : List (Course × Course))
    (h1 : ConflictDetector.find_professor_conflicts l = .ok r)
    (h2 : ConflictDetector.find_professor_conflicts l' = .ok r')
    (h3 : ConflictDetector.find_classroom_conflicts l = .ok s)
    (h4 : ConflictDetector.find_classroom_conflicts l' = .ok s') :
    (∀ x y, pairMem x y r ↔ pairMem x y r') ∧
    (∀ x y, pairMem x y s ↔ pairMem x y s') := by
  have hv' : ∀ c ∈ l', ValidCourse c := fun c hc => hv c (hperm.mem_iff.mp hc)
  have hmP : ∀ a b : Course,
      (a.professor_id == b.professor_id) = (b.professor_id == a.professor_id) :=
    fun _ _ => Bool.beq_comm
  have hmC : ∀ a b : Course,
      (a.classroom_id == b.classroom_id) = (b.classroom_id == a.classroom_id) :=
    fun _ _ => Bool.beq_comm
  have e1 := h1.symm.trans (find_conflicts_eq_spec hv)
  have e2 := h2.symm.trans (find_conflicts_eq_spec hv')
  have e3 := h3.symm.trans (find_conflicts_eq_spec hv)
  have e4 := h4.symm.trans (find_conflicts_eq_spec hv')
  injection e1 with e1
  injection e2 with e2
  injection e3 with e3
  injection e4 with e4
  subst e1 e2 e3 e4
  exact ⟨fun x y => pairMem_spec_perm hmP hnd hperm x y,
    fun x y => pairMem_spec_perm hmC hnd hperm x y⟩

theorem conflict_detection_permutation_invariant_witness :
    pairMem "c1" "c2" [(cProf1, cProf2)] ↔ pairMem "c1" "c2" [(cProf2, cProf1)] :=
  (conflict_detection_permutation_invariant [cProf1, cProf2] [cProf2, cProf1]
    (by decide) (by decide) (List.Perm.swap cProf1 cProf2 [])
    [(cProf1, cProf2)] [(cProf2, cProf1)] [] []
    rfl rfl rfl rfl).1 "c1" "c2"

/-- A course request dict passed to `generate_schedule`: keys `id`, `name`,
`professor_id`, `classroom_id`. -/
structure CourseRequest where
  id : String
  name : String
  professor_id : String
  classroom_id : String

/-- Insertion-ordered key set of a Python dict built by repeated insertion:
first occurrences survive, in order. -/
def dedupFirstAux (seen : List String) : List String → List String
  | [] => []
  | x :: xs => if x ∈ seen then dedupFirstAux seen xs else x :: dedupFirstAux (x :: seen) xs

/-- The keys of the `course_timeslot_vars` dict: one decision variable per
distinct request id, in first-occurrence order (duplicate ids overwrite the
previous entry and hence share a variable). -/
def requestIds (course_requests : List CourseRequest) : List String :=
  dedupFirstAux [] (course_requests.map (fun r => r.id))

/-- The list of course ids appended, in input order and with multiplicity,
to the group of key `k` (`prof_courses[k]` / `room_courses[k]`). -/
def groupFor (course_requests : List CourseRequest) (key : CourseRequest → String)
    (k : String) : List String :=
  (course_requests.filter (fun r => key r == k)).map (fun r => r.id)

/-- The grouping dict (`prof_courses` / `room_courses`): for each distinct
key in first-occurrence order, the ids of the requests with that key. -/
def groupsBy (course_requests : List CourseRequest) (key : CourseRequest → String) :
    List (List String) :=
  (dedupFirstAux [] (course_requests.map key)).map (groupFor course_requests key)

/-- The value `solver.Value(course_timeslot_vars[cid])` of an assignment `a`
to the decision variables, which are indexed by `requestIds`. -/
def lookupIdx (ids : List String) (a : List Nat) (cid : String) : Nat :=
  a.getD (ids.indexOf cid) 0

/-- Boolean pairwise-distinctness, the semantics of `AddAllDifferent` over
the listed variables (a variable listed twice makes the constraint
unsatisfiable). -/
def nodupB : List Nat → Bool
  | [] => true
  | x :: xs => !(xs.contains x) && nodupB xs

/-- The all-different constraint posted for one group: only groups with more
than one member get a constraint. -/
def allDiffOk (ids : List String) (a : List Nat) (g : List String) : Bool :=
  if 1 < g.length then nodupB (g.map (lookupIdx ids a)) else true

/-- An assignment satisfies the model iff every posted professor-group and
classroom-group all-different constraint holds. -/
def okAssign (course_requests : List CourseRequest) (a : List Nat) : Bool :=
  (groupsBy course_requests (fun r => r.professor_id) ++
   groupsBy course_requests (fun r => r.classroom_id)).all
    (fun g => allDiffOk (requestIds course_requests) a g)

/-- All candidate assignments: one value in `[0, nSlots)` per variable. -/
def allAssignments (nSlots : Nat) : Nat → List (List Nat)
  | 0 => [[]]
  | k + 1 =>
    (List.range nSlots).flatMap (fun v => (allAssignments nSlots k).map (fun a => v :: a))

/-- The CP-SAT solver, embedded as a complete deterministic search: returns
a satisfying assignment of slot indices to the decision variables exactly
when one exists.  This is the contract `generate_schedule` relies on
(`OPTIMAL`/`FEASIBLE` when satisfiable, anything else otherwise). -/
def solveCSP (course_requests : List CourseRequest) (nSlots : Nat) : Option (List Nat) :=
  (allAssignments nSlots (requestIds course_requests).length).find?
    (okAssign course_requests)

/-- `ScheduleGenerator.generate_schedule`: empty request list short-circuits
to an empty schedule; otherwise the CSP is solved and, on success, each
request is mapped in input order to a `Course` carrying the timeslot at its
variable's resolved index, while any non-feasible solver outcome raises
`ValueError`. -/
def ScheduleGenerator.generate_schedule (course_requests : List CourseRequest)
    (professors : List Professor) (classrooms : List Classroom)
    (available_timeslots : List TimeSlot) : Except PyError (List Course) :=
  if course_requests.isEmpty then .ok []
  else
    match solveCSP course_requests available_timeslots.length with
    | some a =>
      .ok (course_requests.map (fun req =>
        Course.from_timeslot req.id req.name req.professor_id req.classroom_id
          (available_timeslots.getD
            (lookupIdx (requestIds course_requests) a req.id) default)))
    | none => .error (.valueError "No valid schedule found - constraints cannot be satisfied")

theorem mem_dedupFirstAux {x : String} :
    ∀ (l : List String) (seen : List String),
      x ∈ dedupFirstAux seen l ↔ x ∈ l ∧ x ∉ seen := by
  intro l
  induction l with
  | nil => intro seen; simp [dedupFirstAux]
  | cons y ys ih =>
    intro seen
    by_cases hy : y ∈ seen
    · rw [dedupFirstAux, if_pos hy, ih]
      constructor
      · rintro ⟨h1, h2⟩
        exact ⟨List.mem_cons_of_mem _ h1, h2⟩
      · rintro ⟨h1, h2⟩
        rcases List.mem_cons.mp h1 with rfl | h1
        · exact absurd hy h2
        · exact ⟨h1, h2⟩
    · rw [dedupFirstAux, if_neg hy]
      constructor
      · intro h
        rcases List.mem_cons.mp h with rfl | h
        · exact ⟨List.mem_cons_self _ _, hy⟩
        · obtain ⟨h1, h2⟩ := (ih (y :: seen)).mp h
          exact ⟨List.mem_cons_of_mem _ h1, fun hx => h2 (List.mem_cons_of_mem _ hx)⟩
      · rintro ⟨h1, h2⟩
        rcases List.mem_cons.mp h1 with rfl | h1
        · exact List.mem_cons_self _ _
        · by_cases hxy : x = y
          · subst hxy; exact List.mem_cons_self _ _
          · refine List.mem_cons_of_mem _ ((ih (y :: seen)).mpr ⟨h1, ?_⟩)
            intro hmem
            rcases List.mem_cons.mp hmem with h | h
            · exact hxy h
            · exact h2 h

theorem mem_allAssignments {nSlots : Nat} :
    ∀ {k : Nat} {a : List Nat},
      a ∈ allAssignments nSlots k ↔ a.length = k ∧ ∀ v ∈ a, v < nSlots := by
  intro k
  induction k with
  | zero =>
    intro a
    constructor
    · intro h
      have : a = [] := by simpa [allAssignments] using h
      subst this
      simp
    · rintro ⟨h, _⟩
      have : a = [] := List.length_eq_zero.mp h
      subst this
      simp [allAssignments]
  | succ k ih =>
    intro a
    constructor
    · intro h
      rw [allAssignments, List.mem_flatMap] at h
      obtain ⟨v, hv, hmem⟩ := h
      rw [List.mem_map] at hmem
      obtain ⟨b, hb, rfl⟩ := hmem
      obtain ⟨hblen, hbv⟩ := ih.mp hb
      refine ⟨by simp [hblen], ?_⟩
      intro u hu
      rcases List.mem_cons.mp hu with rfl | hu
      · exact List.mem_range.mp hv
      · exact hbv u hu
    · rintro ⟨hlen, hv⟩
      cases a with
      | nil => simp at hlen
      | cons u b =>
        rw [allAssignments, List.mem_flatMap]
        refine ⟨u, List.mem_range.mpr (hv u (List.mem_cons_self _ _)), ?_⟩
        rw [List.mem_map]
        refine ⟨b, ih.mpr ⟨by simpa using hlen, fun w hw => hv w (List.mem_cons_of_mem _ hw)⟩, rfl⟩

theorem nodupB_iff : ∀ l : List Nat, nodupB l = true ↔ l.Nodup := by
  intro l
  induction l with
  | nil => simp [nodupB]
  | cons x xs ih =>
    rw [nodupB, List.nodup_cons, Bool.and_eq_true, ih]
    simp [List.contains, List.elem_eq_mem]

theorem pair_sublist {α : Type} :
    ∀ (l : List α) (i j : Nat) (hij : i < j) (hj : j < l.length),
      List.Sublist [l.get ⟨i, lt_trans hij hj⟩, l.get ⟨j, hj⟩] l := by
  intro l
  induction l with
  | nil =>
    intro i j hij hj
    exact absurd hj (by simp)
  | cons x xs ih =>
    intro i j hij hj
    cases i with
    | zero =>
      cases j with
      | zero => exact absurd hij (lt_irrefl 0)
      | succ j' =>
        have hj' : j' < xs.length := by simpa using hj
        exact List.Sublist.cons₂ x (List.singleton_sublist.mpr (List.get_mem _ _ _))
    | succ i' =>
      cases j with
      | zero => exact absurd hij (by omega)
      | succ j' =>
        have hij' : i' < j' := by omega
        have hj' : j' < xs.length := by simpa using hj
        exact List.Sublist.cons x (ih i' j' hij' hj')

theorem lookupIdx_lt {course_requests : List CourseRequest} {a : List Nat} {nSlots : Nat}
    (ha : a ∈ allAssignments nSlots (requestIds course_requests).length)
    {r : CourseRequest} (hr : r ∈ course_requests) :
    lookupIdx (requestIds course_requests) a r.id < nSlots := by
  obtain ⟨hlen, hvals⟩ := mem_allAssignments.mp ha
  have hmem : r.id ∈ requestIds course_requests := by
    rw [requestIds, mem_dedupFirstAux]
    exact ⟨List.mem_map_of_mem _ hr, by simp⟩
  have hidx : (requestIds course_requests).indexOf r.id < a.length := by
    rw [hlen]
    exact List.indexOf_lt_length.mpr hmem
  rw [lookupIdx, List.getD_eq_getElem _ _ hidx]
  exact hvals _ (List.getElem_mem hidx)

theorem okAssign_allDiff {course_requests : List CourseRequest} {a : List Nat}
    (h : okAssign course_requests a = true) {g : List String}
    (hg : g ∈ groupsBy course_requests (fun r => r.professor_id) ∨
          g ∈ groupsBy course_requests (fun r => r.classroom_id)) :
    allDiffOk (requestIds course_requests) a g = true := by
  rw [okAssign, List.all_eq_true] at h
  exact h g (List.mem_append.mpr hg)

theorem groupFor_mem {course_requests : List CourseRequest} {r : CourseRequest}
    (hr : r ∈ course_requests) (key : CourseRequest → String) :
    groupFor course_requests key (key r) ∈ groupsBy course_requests key := by
  apply List.mem_map_of_mem
  rw [mem_dedupFirstAux]
  exact ⟨List.mem_map_of_mem _ hr, by simp⟩

/-- A list of pairwise-distinct naturals all below `n` has at most `n`
members (pigeonhole). -/
theorem nodup_bounded_length {l : List Nat} {n : Nat} (hnd : l.Nodup)
    (hb : ∀ v ∈ l, v < n) : l.length ≤ n := by
  have hsub : l.toFinset ⊆ Finset.range n := by
    intro v hv
    rw [List.mem_toFinset] at hv
    exact Finset.mem_range.mpr (hb v hv)
  have hcard := Finset.card_le_card hsub
  rwa [List.toFinset_card_of_nodup hnd, Finset.card_range] at hcard

/-- Key consequence of a satisfying assignment: two requests at distinct
positions sharing a professor id (or classroom id) resolve to distinct slot
indices, because both occurrences of their ids are listed in that resource's
all-different group. -/
theorem okAssign_distinct {course_requests : List CourseRequest} {a : List Nat}
    (hok : okAssign course_requests a = true)
    (key : CourseRequest → String)
    (hkey : key = (fun r => r.professor_id) ∨ key = (fun r => r.classroom_id))
    {i j : Nat} (hij : i < j) (hj : j < course_requests.length)
    (hsame : key (course_requests.get ⟨i, lt_trans hij hj⟩) =
             key (course_requests.get ⟨j, hj⟩)) :
    lookupIdx (requestIds course_requests) a
        (course_requests.get ⟨i, lt_trans hij hj⟩).id ≠
      lookupIdx (requestIds course_requests) a (course_requests.get ⟨j, hj⟩).id := by
  set ri := course_requests.get ⟨i, lt_trans hij hj⟩ with hri
  set rj := course_requests.get ⟨j, hj⟩ with hrj
  have hsub1 : List.Sublist [ri, rj] course_requests := pair_sublist _ i j hij hj
  have hfilter : List.filter (fun r => key r == key ri) [ri, rj] = [ri, rj] := by
    have h1 : (key ri == key ri) = true := beq_self_eq_true _
    have h2 : (key rj == key ri) = true := beq_iff_eq.mpr hsame.symm
    simp [List.filter_cons, h1, h2]
  have hsub2 : List.Sublist [ri, rj]
      (course_requests.filter (fun r => key r == key ri)) := by
    rw [← hfilter]
    exact List.Sublist.filter _ hsub1
  have hsub3 : List.Sublist [ri.id, rj.id] (groupFor course_requests key (key ri)) := by
    unfold groupFor
    simpa using hsub2.map (fun r => r.id)
  have hglen : 1 < (groupFor course_requests key (key ri)).length := by
    have hlen2 := hsub3.length_le
    simp at hlen2
    omega
  have hgmem : groupFor course_requests key (key ri) ∈ groupsBy course_requests key := by
    apply groupFor_mem _ key
    rw [hri]
    exact List.get_mem _ _ _
  have hdiff : allDiffOk (requestIds course_requests) a
      (groupFor course_requests key (key ri)) = true := by
    apply okAssign_allDiff hok
    rcases hkey with rfl | rfl
    · exact Or.inl hgmem
    · exact Or.inr hgmem
  rw [allDiffOk, if_pos hglen, nodupB_iff] at hdiff
  have hsub4 : List.Sublist
      [lookupIdx (requestIds course_requests) a ri.id,
       lookupIdx (requestIds course_requests) a rj.id]
      ((groupFor course_requests key (key ri)).map
        (lookupIdx (requestIds course_requests) a)) := by
    simpa using hsub3.map (lookupIdx (requestIds course_requests) a)
  have hnd2 := List.Nodup.sublist hsub4 hdiff
  simpa [List.nodup_cons] using hnd2

/-- Inversion of a successful generation: a satisfying assignment exists and
the output is the input mapped through it. -/
theorem generate_schedule_ok {course_requests : List CourseRequest}
    {ps : List Professor} {cs : List Classroom} {slots : List TimeSlot}
    {out : List Course}
    (h : ScheduleGenerator.generate_schedule course_requests ps cs slots = .ok out)
    (hne : course_requests ≠ []) :
    ∃ a, a ∈ allAssignments slots.length (requestIds course_requests).length ∧
      okAssign course_requests a = true ∧
      out = course_requests.map (fun req =>
        Course.from_timeslot req.id req.name req.professor_id req.classroom_id
          (slots.getD (lookupIdx (requestIds course_requests) a req.id) default)) := by
  rw [ScheduleGenerator.generate_schedule,
    if_neg (by simpa [List.isEmpty_iff] using hne)] at h
  rcases hs : solveCSP course_requests slots.length with _ | a
  · rw [hs] at h
    cases h
  · rw [hs] at h
    injection h with h
    rw [solveCSP] at hs
    exact ⟨a, List.mem_of_find?_eq_some hs, List.find?_some hs, h.symm⟩

/-- Inversion of a failing generation: the call fails exactly when the
request list is non-empty and the embedded solver finds no satisfying
assignment, and the error is always the fixed infeasibility `ValueError`. -/
theorem generate_schedule_error_iff {course_requests : List CourseRequest}
    {ps : List Professor} {cs : List Classroom} {slots : List TimeSlot} {e : PyError} :
    ScheduleGenerator.generate_schedule course_requests ps cs slots = .error e ↔
      (course_requests ≠ [] ∧ solveCSP course_requests slots.length = none ∧
        e = .valueError "No valid schedule found - constraints cannot be satisfied") := by
  rw [ScheduleGenerator.generate_schedule]
  by_cases hne : course_requests = []
  · subst hne
    simp
  · rw [if_neg (by simpa [List.isEmpty_iff] using hne)]
    rcases hs : solveCSP course_requests slots.length with _ | a
    · show Except.error (PyError.valueError
          "No valid schedule found - constraints cannot be satisfied") = Except.error e ↔ _
      constructor
      · intro h
        injection h with h
        exact ⟨hne, rfl, h.symm⟩
      · rintro ⟨_, _, rfl⟩
        rfl
    · show Except.ok _ = Except.error e ↔ _
      constructor
      · intro h
        cases h
      · rintro ⟨_, h, _⟩
        cases h

/-- Structural equality of timeslots from field equality. -/
theorem TimeSlot.eq_of_fields {t₁ t₂ : TimeSlot} (hw : t₁.weekday = t₂.weekday)
    (hp : t₁.period = t₂.period) : t₁ = t₂ := by
  cases t₁
  cases t₂
  simp_all

/-- C1 (amended): on every successful call, two returned sections at distinct
positions sharing a professor id or a classroom id were assigned distinct
slot indices, so whenever `available_timeslots` contains no duplicate
`TimeSlot` values their stored timeslot columns differ. -/
theorem generator_invariant (course_requests : List CourseRequest)
    (ps : List Professor) (cs : List Classroom) (slots : List TimeSlot)
    (out : List Course) (hnd : slots.Nodup)
    (hgen : ScheduleGenerator.generate_schedule course_requests ps cs slots = .ok out)
    (i j : Nat) (hij : i < j) (hj : j < out.length)
    (hshare : (out.get ⟨i, lt_trans hij hj⟩).professor_id =
                (out.get ⟨j, hj⟩).professor_id ∨
              (out.get ⟨i, lt_trans hij hj⟩).classroom_id =
                (out.get ⟨j, hj⟩).classroom_id) :
    ¬ ((out.get ⟨i, lt_trans hij hj⟩).weekday = (out.get ⟨j, hj⟩).weekday ∧
       (out.get ⟨i, lt_trans hij hj⟩).period = (out.get ⟨j, hj⟩).period) := by
  by_cases hne : course_requests = []
  · subst hne
    have hout : out = [] := by
      rw [ScheduleGenerator.generate_schedule] at hgen
      simp at hgen
      exact hgen
    subst hout
    exact absurd hj (by simp)
  · obtain ⟨a, ha, hok, hout⟩ := generate_schedule_ok hgen hne
    subst hout
    have hj' : j < course_requests.length := by simpa using hj
    have hi' : i < course_requests.length := lt_trans hij hj'
    simp only [List.get_eq_getElem, List.getElem_map, Course.from_timeslot] at hshare ⊢
    have hdist : lookupIdx (requestIds course_requests) a
        (course_requests.get ⟨i, hi'⟩).id ≠
        lookupIdx (requestIds course_requests) a (course_requests.get ⟨j, hj'⟩).id := by
      rcases hshare with hP | hC
      · refine okAssign_distinct hok (fun r => r.professor_id) (Or.inl rfl) hij hj' ?_
        simpa [List.get_eq_getElem] using hP
      · refine okAssign_distinct hok (fun r => r.classroom_id) (Or.inr rfl) hij hj' ?_
        simpa [List.get_eq_getElem] using hC
    have hbi : lookupIdx (requestIds course_requests) a
        (course_requests.get ⟨i, hi'⟩).id < slots.length :=
      lookupIdx_lt ha (List.get_mem _ _ _)
    have hbj : lookupIdx (requestIds course_requests) a
        (course_requests.get ⟨j, hj'⟩).id < slots.length :=
      lookupIdx_lt ha (List.get_mem _ _ _)
    rintro ⟨hw, hp⟩
    simp only [List.get_eq_getElem] at hdist hbi hbj
    rw [List.getD_eq_getElem _ _ hbi, List.getD_eq_getElem _ _ hbj] at hw hp
    have hweq := Weekday.value_injective _ _ hw
    have hteq := TimeSlot.eq_of_fields hweq hp
    exact hdist ((@List.Nodup.getElem_inj_iff _ slots hnd _ hbi _ hbj).mp hteq)

/-- Request "a": professor P, room R1. -/
def reqA : CourseRequest := ⟨"a", "A", "P", "R1"⟩

/-- Request "b": same professor P, room R2. -/
def reqB : CourseRequest := ⟨"b", "B", "P", "R2"⟩

/-- Monday, period 1. -/
def slotM1 : TimeSlot := ⟨.monday, 1⟩

/-- Monday, period 2. -/
def slotM2 : TimeSlot := ⟨.monday, 2⟩

/-- C1 counterexample: with `available_timeslots = [slotM1, slotM1]`
(duplicate `TimeSlot` values) and two distinct requests sharing professor
`P`, the call succeeds and both returned sections carry the same timeslot:
the claimed invariant fails on inputs with duplicate available timeslots.
The CSP constrains only the slot indices, and here every index maps to the
same `TimeSlot`. -/
theorem generator_invariant_counterexample :
    ScheduleGenerator.generate_schedule [reqA, reqB] [] [] [slotM1, slotM1] =
      .ok [Course.from_timeslot "a" "A" "P" "R1" slotM1,
           Course.from_timeslot "b" "B" "P" "R2" slotM1] ∧
    (Course.from_timeslot "a" "A" "P" "R1" slotM1).professor_id =
      (Course.from_timeslot "b" "B" "P" "R2" slotM1).professor_id ∧
    (Course.from_timeslot "a" "A" "P" "R1" slotM1).id ≠
      (Course.from_timeslot "b" "B" "P" "R2" slotM1).id ∧
    (Course.from_timeslot "a" "A" "P" "R1" slotM1).timeslot =
      (Course.from_timeslot "b" "B" "P" "R2" slotM1).timeslot :=
  ⟨rfl, rfl, by decide, rfl⟩

/-- The schedule generated for `[reqA, reqB]` over the two distinct slots. -/
def outW : List Course :=
  [Course.from_timeslot "a" "A" "P" "R1" slotM1,
   Course.from_timeslot "b" "B" "P" "R2" slotM2]

theorem generator_invariant_witness :
    ¬ ((outW.get ⟨0, by decide⟩).weekday = (outW.get ⟨1, by decide⟩).weekday ∧
       (outW.get ⟨0, by decide⟩).period = (outW.get ⟨1, by decide⟩).period) :=
  generator_invariant [reqA, reqB] [] [] [slotM1, slotM2] outW (by decide) rfl
    0 1 (by decide) (by decide) (Or.inl rfl)

/-- C8: on every feasible input the returned list has the same length as the
request list, its k-th element carries the k-th request's id, name,
professor id and classroom id, and its stored timeslot columns are those of
some element of `available_timeslots` (the element at the solved index). -/
theorem generator_output_structure (course_requests : List CourseRequest)
    (ps : List Professor) (cs : List Classroom) (slots : List TimeSlot)
    (out : List Course)
    (hgen : ScheduleGenerator.generate_schedule course_requests ps cs slots = .ok out) :
    out.length = course_requests.length ∧
    ∀ (k : Nat) (hk : k < course_requests.length) (hk2 : k < out.length),
      (out.get ⟨k, hk2⟩).id = (course_requests.get ⟨k, hk⟩).id ∧
      (out.get ⟨k, hk2⟩).name = (course_requests.get ⟨k, hk⟩).name ∧
      (out.get ⟨k, hk2⟩).professor_id = (course_requests.get ⟨k, hk⟩).professor_id ∧
      (out.get ⟨k, hk2⟩).classroom_id = (course_requests.get ⟨k, hk⟩).classroom_id ∧
      ∃ idx : Fin slots.length,
        (out.get ⟨k, hk2⟩).weekday = (slots.get idx).weekday.value ∧
        (out.get ⟨k, hk2⟩).period = (slots.get idx).period := by
  by_cases hne : course_requests = []
  · subst hne
    have hout : out = [] := by
      rw [ScheduleGenerator.generate_schedule] at hgen
      simp at hgen
      exact hgen
    subst hout
    exact ⟨rfl, fun k hk _ => absurd hk (by simp)⟩
  · obtain ⟨a, ha, hok, hout⟩ := generate_schedule_ok hgen hne
    subst hout
    refine ⟨by simp, ?_⟩
    intro k hk hk2
    have hb : lookupIdx (requestIds course_requests) a
        (course_requests.get ⟨k, hk⟩).id < slots.length :=
      lookupIdx_lt ha (List.get_mem _ _ _)
    simp only [List.get_eq_getElem, List.getElem_map, Course.from_timeslot]
    refine ⟨trivial, trivial, trivial, trivial, ⟨⟨_, hb⟩, ?_, ?_⟩⟩
    · simp only [List.get_eq_getElem] at hb
      rw [List.getD_eq_getElem _ _ hb]
      simp [List.get_eq_getElem]
    · simp only [List.get_eq_getElem] at hb
      rw [List.getD_eq_getElem _ _ hb]
      simp [List.get_eq_getElem]

theorem generator_output_structure_witness :
    outW.length = ([reqA, reqB] : List CourseRequest).length ∧
    (outW.get ⟨0, by decide⟩).id =
      (([reqA, reqB] : List CourseRequest).get ⟨0, by decide⟩).id := by
  have h := generator_output_structure [reqA, reqB] [] [] [slotM1, slotM2] outW rfl
  exact ⟨h.1, (h.2 0 (by decide) (by decide)).1⟩

/-- C2 (amended): `generate_schedule` raises the fixed infeasibility
`ValueError` exactly when the request list is non-empty and no assignment of
slot *indices* to the decision variables satisfies the posted all-different
constraints; any raised error is that single `ValueError` (so no partial
result accompanies a failure). -/
theorem infeasible_iff_no_assignment (course_requests : List CourseRequest)
    (ps : List Professor) (cs : List Classroom) (slots : List TimeSlot) :
    (ScheduleGenerator.generate_schedule course_requests ps cs slots =
        .error (.valueError "No valid schedule found - constraints cannot be satisfied") ↔
      (course_requests ≠ [] ∧
        ∀ a ∈ allAssignments slots.length (requestIds course_requests).length,
          okAssign course_requests a = false)) ∧
    (∀ e, ScheduleGenerator.generate_schedule course_requests ps cs slots = .error e →
      e = .valueError "No valid schedule found - constraints cannot be satisfied") := by
  constructor
  · rw [generate_schedule_error_iff]
    constructor
    · rintro ⟨hne, hs, _⟩
      refine ⟨hne, fun a ha => ?_⟩
      rw [solveCSP] at hs
      have h := List.find?_eq_none.mp hs a ha
      simpa using h
    · rintro ⟨hne, hall⟩
      refine ⟨hne, ?_, rfl⟩
      rw [solveCSP, List.find?_eq_none]
      intro a ha
      simp [hall a ha]
  · intro e he
    exact (generate_schedule_error_iff.mp he).2.2

/-- C2 counterexample: with duplicate available timeslots `[slotM1, slotM1]`
and two requests sharing professor `P`, the call returns a schedule although
no assignment of available *timeslots* to the requests avoids double-booking
the professor: in every candidate index assignment the two requests receive
equal timeslots.  The raise-iff-no-timeslot-assignment claim therefore fails;
the code's condition is about slot indices. -/
theorem infeasible_iff_no_assignment_counterexample :
    ScheduleGenerator.generate_schedule [reqA, reqB] [] [] [slotM1, slotM1] =
      .ok [Course.from_timeslot "a" "A" "P" "R1" slotM1,
           Course.from_timeslot "b" "B" "P" "R2" slotM1] ∧
    ((allAssignments 2 2).all (fun a =>
      decide (([slotM1, slotM1] : List TimeSlot).getD (a.getD 0 0) default =
        ([slotM1, slotM1] : List TimeSlot).getD (a.getD 1 0) default))) = true :=
  ⟨rfl, by decide⟩

theorem infeasible_iff_no_assignment_witness :
    ScheduleGenerator.generate_schedule [reqA, reqB] [] [] [slotM1] =
      .error (.valueError "No valid schedule found - constraints cannot be satisfied") :=
  (infeasible_iff_no_assignment [reqA, reqB] [] [] [slotM1]).1.mpr
    ⟨by simp, by decide⟩

/-- No assignment can satisfy a group whose length exceeds the number of
slot indices: the pigeonhole core of the structural-infeasibility property,
stated against the list length of `available_timeslots`. -/
theorem not_okAssign_of_overfull {course_requests : List CourseRequest}
    {slotsLen : Nat} {a : List Nat}
    (ha : a ∈ allAssignments slotsLen (requestIds course_requests).length)
    (key : CourseRequest → String)
    (hkey : key = (fun r => r.professor_id) ∨ key = (fun r => r.classroom_id))
    {k : String}
    (hover : slotsLen < (course_requests.filter (fun r => key r == k)).length) :
    ¬ okAssign course_requests a = true := by
  intro hok
  have hpos : 0 < (course_requests.filter (fun r => key r == k)).length := by omega
  obtain ⟨r0, hr0⟩ := List.exists_mem_of_length_pos hpos
  have hr0req : r0 ∈ course_requests := List.mem_of_mem_filter hr0
  have hr0key : key r0 = k := by
    have := List.of_mem_filter hr0
    simpa using this
  subst hr0key
  rcases Nat.eq_zero_or_pos slotsLen with hz | hpos'
  · subst hz
    obtain ⟨hlen, hv⟩ := mem_allAssignments.mp ha
    have hne : (requestIds course_requests).length ≠ 0 := by
      have hmem : r0.id ∈ requestIds course_requests := by
        rw [requestIds, mem_dedupFirstAux]
        exact ⟨List.mem_map_of_mem _ hr0req, by simp⟩
      have := List.length_pos.mpr (List.ne_nil_of_mem hmem)
      omega
    cases a with
    | nil => exact hne (by simpa using hlen.symm)
    | cons v rest => exact absurd (hv v (List.mem_cons_self _ _)) (by omega)
  · have hgmem : groupFor course_requests key (key r0) ∈ groupsBy course_requests key :=
      groupFor_mem hr0req key
    have hdiff : allDiffOk (requestIds course_requests) a
        (groupFor course_requests key (key r0)) = true := by
      apply okAssign_allDiff hok
      rcases hkey with rfl | rfl
      · exact Or.inl hgmem
      · exact Or.inr hgmem
    have hglen : 1 < (groupFor course_requests key (key r0)).length := by
      rw [groupFor, List.length_map]
      omega
    rw [allDiffOk, if_pos hglen, nodupB_iff] at hdiff
    have hbound : ∀ v ∈ (groupFor course_requests key (key r0)).map
        (lookupIdx (requestIds course_requests) a), v < slotsLen := by
      intro v hv
      rw [List.mem_map] at hv
      obtain ⟨cid, hcid, rfl⟩ := hv
      rw [groupFor, List.mem_map] at hcid
      obtain ⟨r1, hr1, rfl⟩ := hcid
      exact lookupIdx_lt ha (List.mem_of_mem_filter hr1)
    have hle := nodup_bounded_length hdiff hbound
    rw [List.length_map, groupFor, List.length_map] at hle
    omega

/-- C3 (amended): whenever some professor group or some classroom group is
larger than the *length* of `available_timeslots`, `generate_schedule` fails
with exactly the infeasibility `ValueError`: it never returns a schedule and
never raises any other error. -/
theorem pigeonhole_infeasible (course_requests : List CourseRequest)
    (ps : List Professor) (cs : List Classroom) (slots : List TimeSlot)
    (h : (∃ pr, slots.length <
            (course_requests.filter (fun r => r.professor_id == pr)).length) ∨
         (∃ rm, slots.length <
            (course_requests.filter (fun r => r.classroom_id == rm)).length)) :
    ScheduleGenerator.generate_schedule course_requests ps cs slots =
      .error (.valueError "No valid schedule found - constraints cannot be satisfied") := by
  have hne : course_requests ≠ [] := by
    rcases h with ⟨pr, hpr⟩ | ⟨rm, hrm⟩
    · have hpos : 0 < (course_requests.filter
          (fun r => r.professor_id == pr)).length := by omega
      obtain ⟨r0, hr0⟩ := List.exists_mem_of_length_pos hpos
      exact List.ne_nil_of_mem (List.mem_of_mem_filter hr0)
    · have hpos : 0 < (course_requests.filter
          (fun r => r.classroom_id == rm)).length := by omega
      obtain ⟨r0, hr0⟩ := List.exists_mem_of_length_pos hpos
      exact List.ne_nil_of_mem (List.mem_of_mem_filter hr0)
  rw [generate_schedule_error_iff]
  refine ⟨hne, ?_, rfl⟩
  rw [solveCSP, List.find?_eq_none]
  intro a ha
  rcases h with ⟨pr, hpr⟩ | ⟨rm, hrm⟩
  · exact not_okAssign_of_overfull ha _ (Or.inl rfl) hpr
  · exact not_okAssign_of_overfull ha _ (Or.inr rfl) hrm

/-- C3 counterexample: with `available_timeslots = [slotM1, slotM1]` the
number of *distinct* available timeslots (1) is smaller than the largest
professor group (2), yet the call returns a schedule instead of failing with
the infeasibility error: only the list length, not the distinct count,
drives the generator. -/
theorem pigeonhole_infeasible_counterexample :
    (([slotM1, slotM1] : List TimeSlot).dedup.length = 1) ∧
    (([reqA, reqB].filter (fun r => r.professor_id == "P")).length = 2) ∧
    ScheduleGenerator.generate_schedule [reqA, reqB] [] [] [slotM1, slotM1] =
      .ok [Course.from_timeslot "a" "A" "P" "R1" slotM1,
           Course.from_timeslot "b" "B" "P" "R2" slotM1] :=
  ⟨by decide, by decide, rfl⟩

/-- Request "c": professor P2, room R1. -/
def reqC : CourseRequest := ⟨"c", "C", "P2", "R1"⟩

/-- Request "d": professor P3, same room R1. -/
def reqD : CourseRequest := ⟨"d", "D", "P3", "R1"⟩

theorem pigeonhole_infeasible_witness :
    ScheduleGenerator.generate_schedule [reqC, reqD] [] [] [slotM1] =
      .error (.valueError "No valid schedule found - constraints cannot be satisfied") :=
  pigeonhole_infeasible [reqC, reqD] [] [] [slotM1] (Or.inr ⟨"R1", by decide⟩)

/-- Request with id "a", professor P1, room R1. -/
def reqDup1 : CourseRequest := ⟨"a", "A", "P1", "R1"⟩

/-- Second request with the same id "a" but different name, professor and
room. -/
def reqDup2 : CourseRequest := ⟨"a", "A2", "P2", "R2"⟩

/-- C4 counterexample: duplicate request ids are not rejected — the call
proceeds to the solver and succeeds, both requests sharing the single
decision variable of id "a" — and a non-empty request list with empty
`available_timeslots` is not reported as a distinct precondition violation
but with the very infeasibility `ValueError`. -/
theorem no_precondition_validation_counterexample :
    ScheduleGenerator.generate_schedule [reqDup1, reqDup2] [] [] [slotM1] =
      .ok [Course.from_timeslot "a" "A" "P1" "R1" slotM1,
           Course.from_timeslot "a" "A2" "P2" "R2" slotM1] ∧
    ScheduleGenerator.generate_schedule [reqDup1] [] [] [] =
      .error (.valueError "No valid schedule found - constraints cannot be satisfied") :=
  ⟨rfl, rfl⟩

/-- C4 (amended): the generator performs no precondition validation: a
non-empty request list with empty `available_timeslots` reaches the solver
and fails with the same infeasibility `ValueError` as any unsatisfiable
model, and on success requests with equal ids (which share one decision
variable) always receive identical timeslot columns. -/
theorem no_precondition_validation (course_requests : List CourseRequest)
    (ps : List Professor) (cs : List Classroom) (slots : List TimeSlot)
    (out : List Course) :
    (course_requests ≠ [] →
      ScheduleGenerator.generate_schedule course_requests ps cs [] =
        .error (.valueError "No valid schedule found - constraints cannot be satisfied")) ∧
    (ScheduleGenerator.generate_schedule course_requests ps cs slots = .ok out →
      ∀ (i j : Nat) (hi : i < course_requests.length) (hj : j < course_requests.length),
        (course_requests.get ⟨i, hi⟩).id = (course_requests.get ⟨j, hj⟩).id →
        ∃ (hi2 : i < out.length) (hj2 : j < out.length),
          (out.get ⟨i, hi2⟩).weekday = (out.get ⟨j, hj2⟩).weekday ∧
          (out.get ⟨i, hi2⟩).period = (out.get ⟨j, hj2⟩).period) := by
  constructor
  · intro hne
    rw [generate_schedule_error_iff]
    refine ⟨hne, ?_, rfl⟩
    rw [solveCSP]
    have hlen : (requestIds course_requests).length ≠ 0 := by
      cases course_requests with
      | nil => exact absurd rfl hne
      | cons r rs =>
        have hmem : r.id ∈ requestIds (r :: rs) := by
          rw [requestIds, mem_dedupFirstAux]
          exact ⟨by simp, by simp⟩
        have := List.length_pos.mpr (List.ne_nil_of_mem hmem)
        omega
    obtain ⟨k, hk⟩ := Nat.exists_eq_succ_of_ne_zero hlen
    rw [List.length_nil, hk]
    rfl
  · intro hgen i j hi hj hid
    by_cases hne : course_requests = []
    · subst hne
      exact absurd hi (by simp)
    · obtain ⟨a, ha, hok, hout⟩ := generate_schedule_ok hgen hne
      subst hout
      refine ⟨by simpa using hi, by simpa using hj, ?_, ?_⟩ <;>
        simp only [List.get_eq_getElem, List.getElem_map, Course.from_timeslot] <;>
        simp only [List.get_eq_getElem] at hid <;>
        rw [hid]

theorem no_precondition_validation_witness :
    ScheduleGenerator.generate_schedule [reqDup1] [] [] [] =
      .error (.valueError "No valid schedule found - constraints cannot be satisfied") :=
  (no_precondition_validation [reqDup1] [] [] [] []).1 (by simp)
